import Mathlib

/-!
Shallow embedding of the litebeam sharder (litebeam.go): the metadata table
`shards(shard_id PRIMARY KEY, item_count)` together with the coordinator
operations `NewSharder`, `setUpShards`, `createAndRegisterNewShard`,
`ensureShardExists`, `AssignItemToShard`, `RemoveItemFromShard`,
`GetItemCount`, `GetTotalItemCount`, `GetShardCount`.

The metadata store is modelled as a list of rows; SQL queries with
`ORDER BY ... LIMIT 1` become folds computing the corresponding minimum,
`UPDATE ... WHERE shard_id = ?` becomes a map touching the matching rows,
`INSERT` appends a row.  `shard_id` and `item_count` are modelled as `Nat`
(the code only ever stores ids `≥ 0` and counts `≥ 0`: counts start at 0 or 1,
are incremented, or decremented with `MAX(item_count - 1, 0)`, which is
exactly truncated `Nat` subtraction); the configuration integers `SoftCap`
and `MaxDBCount` are modelled as `Int`, with comparisons against row data
cast to `Int`, mirroring Go `int` arithmetic.  File-system and SQL-engine
failures are out of scope: every query and transaction commit succeeds.
-/

namespace Litebeam

/-- A row of the `shards` metadata table (`storage_path` and `created_at`
are determined by `shard_id` and play no role in the algorithms). -/
structure ShardRec where
  shard_id : Nat
  item_count : Nat
deriving DecidableEq

/-- The `shards` metadata table. -/
abbrev MetaDB := List ShardRec

/-- Resolved `GenerationMode` ("on-startup" | "dynamic"). -/
inductive GenerationMode where
  | onStartup
  | dynamic
deriving DecidableEq

/-- Resolved `BalancingMode` ("round-robin" | "fill"). -/
inductive BalancingMode where
  | roundRobin
  | fill
deriving DecidableEq

/-- Raw configuration as the caller hands it to `NewSharder`, with the
mode enums still encoded as strings. -/
structure ConfigIn where
  basePath : String
  softCap : Int
  maxDBCount : Int
  balancingMode : String
  generationMode : String
deriving DecidableEq

/-- Validated configuration held by the `Sharder`. -/
structure Config where
  basePath : String
  softCap : Int
  maxDBCount : Int
  balancingMode : BalancingMode
  generationMode : GenerationMode
deriving DecidableEq

/-- `SELECT ... FROM shards WHERE shard_id = ?` (first matching row). -/
def findRec (db : MetaDB) (id : Nat) : Option ShardRec :=
  db.find? fun r => r.shard_id == id

/-- `SELECT COUNT(*) FROM shards WHERE shard_id = ? > 0`. -/
def shardExists (db : MetaDB) (id : Nat) : Bool :=
  db.any fun r => r.shard_id == id

/-- Strict lexicographic comparison on a `(Nat, Nat)` sort key; used to model
`ORDER BY a ASC, b ASC LIMIT 1`. -/
def keyLt (a b : Nat × Nat) : Bool :=
  a.1 < b.1 || (a.1 == b.1 && a.2 < b.2)

/-- The non-strict lexicographic order on `(Nat, Nat)` sort keys: "sorts no
later than".  `keyLe (key r) (key x)` states that row `r` comes first under
`ORDER BY` on `key`. -/
def keyLe (a b : Nat × Nat) : Prop :=
  a.1 < b.1 ∨ (a.1 = b.1 ∧ a.2 ≤ b.2)

/-- Row with the least sort key among `r :: rs` (first such row on ties). -/
def pickMin (key : ShardRec → Nat × Nat) (r : ShardRec) (rs : List ShardRec) : ShardRec :=
  rs.foldl (fun best x => if keyLt (key x) (key best) then x else best) r

/-- `SELECT shard_id FROM shards ORDER BY item_count ASC, shard_id ASC LIMIT 1`. -/
def firstByCountThenId : MetaDB → Option ShardRec
  | [] => none
  | r :: rs => some (pickMin (fun x => (x.item_count, x.shard_id)) r rs)

/-- `SELECT shard_id FROM shards WHERE item_count < cap ORDER BY shard_id LIMIT 1`. -/
def firstUnderCap (db : MetaDB) (cap : Int) : Option ShardRec :=
  match db.filter fun r => decide ((r.item_count : Int) < cap) with
  | [] => none
  | r :: rs => some (pickMin (fun x => (x.shard_id, 0)) r rs)

/-- `SELECT MAX(shard_id) FROM shards` (`none` models the SQL `NULL` on an
empty table). -/
def maxShardId : MetaDB → Option Nat
  | [] => none
  | r :: rs => some (rs.foldl (fun m x => Nat.max m x.shard_id) r.shard_id)

/-- `UPDATE shards SET item_count = item_count + 1 WHERE shard_id = ?`. -/
def incrCount (db : MetaDB) (id : Nat) : MetaDB :=
  db.map fun r => if r.shard_id = id then { r with item_count := r.item_count + 1 } else r

/-- `UPDATE shards SET item_count = MAX(item_count - 1, 0) WHERE shard_id = ?`
(truncated `Nat` subtraction is exactly the `MAX(· - 1, 0)` floor). -/
def decrFloor (db : MetaDB) (id : Nat) : MetaDB :=
  db.map fun r => if r.shard_id = id then { r with item_count := r.item_count - 1 } else r

/-- `UPDATE shards SET item_count = 1 WHERE shard_id = ?`. -/
def setCountOne (db : MetaDB) (id : Nat) : MetaDB :=
  db.map fun r => if r.shard_id = id then { r with item_count := 1 } else r

/-- `GetShardCount`: `SELECT COUNT(*) FROM shards`. -/
def GetShardCount (db : MetaDB) : Nat :=
  db.length

/-- `GetItemCount`: `SELECT item_count FROM shards WHERE shard_id = ?`,
`sql.ErrNoRows` becoming an error value. -/
def GetItemCount (db : MetaDB) (id : Nat) : Except String Nat :=
  match findRec db id with
  | some r => .ok r.item_count
  | none => .error "shard ID not found in metadata"

/-- `GetItemCount` with errors defaulted to 0, for stating aggregates. -/
def getItemCountD (db : MetaDB) (id : Nat) : Nat :=
  match GetItemCount db id with
  | .ok n => n
  | .error _ => 0

/-- `GetTotalItemCount`: `SELECT SUM(item_count) FROM shards`
(`NULL` on the empty table is reported as 0). -/
def GetTotalItemCount (db : MetaDB) : Nat :=
  (db.map ShardRec.item_count).sum

/-- `createAndRegisterNewShard`: refuse when `COUNT(*) >= MaxDBCount`;
treat a pre-existing row for `shardID` as success; otherwise insert the
row `(shardID, 0)`.  Physical file creation and the schema callback are
modelled as always succeeding. -/
def createAndRegisterNewShard (cfg : Config) (db : MetaDB) (shardID : Nat) :
    Except String MetaDB :=
  if (db.length : Int) ≥ cfg.maxDBCount then
    .error "maximum number of shards reached"
  else if shardExists db shardID then
    .ok db
  else
    .ok (db ++ [{ shard_id := shardID, item_count := 0 }])

/-- `ensureShardExists`: create the shard when absent; returns the id. -/
def ensureShardExists (cfg : Config) (db : MetaDB) (shardID : Nat) :
    Except String (Nat × MetaDB) :=
  if shardExists db shardID then
    .ok (shardID, db)
  else
    match createAndRegisterNewShard cfg db shardID with
    | .error e => .error e
    | .ok db' => .ok (shardID, db')

/-- The `for i := count; i < MaxDBCount; i++` creation loop of
`setUpShards` in on-startup mode, running `n` iterations from index `i`. -/
def createRange (cfg : Config) : MetaDB → Nat → Nat → Except String MetaDB
  | db, _, 0 => .ok db
  | db, i, n + 1 =>
    match createAndRegisterNewShard cfg db i with
    | .error e => .error e
    | .ok db' => createRange cfg db' (i + 1) n

/-- `setUpShards`: dynamic mode ensures shard 0 exists (and then calls
`createAndRegisterNewShard 0` once more, exactly as the Go does, since
`ensureShardExists` always returns id 0 and `0 > 0` is false); on-startup
mode creates shards `count .. MaxDBCount-1`. -/
def setUpShards (cfg : Config) (db : MetaDB) : Except String MetaDB :=
  match cfg.generationMode with
  | .dynamic =>
    match ensureShardExists cfg db 0 with
    | .error _ => .error "failed to check existence of shard 0"
    | .ok (shardID, db') =>
      if shardID > 0 then
        .ok db'
      else
        match createAndRegisterNewShard cfg db' 0 with
        | .error _ => .error "failed to generate intial shard on dynamic startup"
        | .ok db'' => .ok db''
  | .onStartup =>
    let count := GetShardCount db
    if (count : Int) ≥ cfg.maxDBCount then
      .ok db
    else
      createRange cfg db count (cfg.maxDBCount - count).toNat

/-- The `GenerationMode` switch of `NewSharder`: `""` defaults to dynamic,
unrecognized non-empty strings are rejected. -/
def parseGenerationMode (s : String) : Option GenerationMode :=
  if s = "" then some .dynamic
  else if s = "dynamic" then some .dynamic
  else if s = "on-startup" then some .onStartup
  else none

/-- The `BalancingMode` switch of `NewSharder`: `""` defaults to fill,
unrecognized non-empty strings are rejected. -/
def parseBalancingMode (s : String) : Option BalancingMode :=
  if s = "" then some .fill
  else if s = "fill" then some .fill
  else if s = "round-robin" then some .roundRobin
  else none

/-- The validation section of `NewSharder`, in source order: base path,
soft cap, max shard count, generation mode, balancing mode. -/
def validateConfig (c : ConfigIn) : Except String Config :=
  if c.basePath = "" then
    .error "BasePath cannot be empty"
  else if c.softCap ≤ 0 then
    .error "SoftCap must be greater than 0"
  else if c.maxDBCount ≤ 0 then
    .error "MaxDBCount must be greater than 0"
  else
    match parseGenerationMode c.generationMode with
    | none => .error "not a valid GenerationMode"
    | some g =>
      match parseBalancingMode c.balancingMode with
      | none => .error "not a valid BalancingMode"
      | some b =>
        .ok { basePath := c.basePath, softCap := c.softCap, maxDBCount := c.maxDBCount,
              balancingMode := b, generationMode := g }

/-- `NewSharder` over an empty base directory: validate the configuration,
open a fresh (empty) metadata table, run `setUpShards`. -/
def NewSharder (c : ConfigIn) : Except String (Config × MetaDB) :=
  match validateConfig c with
  | .error e => .error e
  | .ok cfg =>
    match setUpShards cfg ([] : MetaDB) with
    | .error e => .error e
    | .ok db => .ok (cfg, db)

/-- The `nextShardID` computation of the fill path: `MAX(shard_id) + 1`,
or 0 when the table is empty (`sql.NullInt64` invalid). -/
def nextShardID (db : MetaDB) : Nat :=
  match maxShardId db with
  | some m => m + 1
  | none => 0

/-- `AssignItemToShard`: round-robin increments the globally least-loaded
row; fill increments the least id under the soft cap, otherwise computes
`nextShardID = MAX(shard_id) + 1` (0 on an empty table), falls back to the
least-loaded row when `nextShardID > MaxDBCount - 1`, and otherwise creates
shard `nextShardID` and sets its count to 1. -/
def AssignItemToShard (cfg : Config) (db : MetaDB) : Except String (Nat × MetaDB) :=
  match cfg.balancingMode with
  | .roundRobin =>
    match firstByCountThenId db with
    | none => .error "failed to determine next shard ID"
    | some r => .ok (r.shard_id, incrCount db r.shard_id)
  | .fill =>
    match firstUnderCap db cfg.softCap with
    | some r => .ok (r.shard_id, incrCount db r.shard_id)
    | none =>
      if (nextShardID db : Int) > cfg.maxDBCount - 1 then
        match firstByCountThenId db with
        | none => .error "failed to determine next shard ID where shards are exhausted"
        | some r => .ok (r.shard_id, incrCount db r.shard_id)
      else
        match createAndRegisterNewShard cfg db (nextShardID db) with
        | .error e => .error e
        | .ok db' => .ok (nextShardID db, setCountOne db' (nextShardID db))

/-- `RemoveItemFromShard`: the floored decrement; the transaction always
commits in the model, so the operation always reports success, including
when no row matches `id`. -/
def RemoveItemFromShard (db : MetaDB) (id : Nat) : MetaDB :=
  decrFloor db id

/-- One public mutating call of a client trace; failed assignments roll the
transaction back and leave the table unchanged. -/
inductive Op where
  | assign
  | remove (id : Nat)
deriving DecidableEq

/-- Effect of one traced call on the metadata table. -/
def stepOp (cfg : Config) (db : MetaDB) : Op → MetaDB
  | .assign =>
    match AssignItemToShard cfg db with
    | .ok (_, db') => db'
    | .error _ => db
  | .remove id => RemoveItemFromShard db id

/-- Run a trace of public calls against the table. -/
def run (cfg : Config) (db : MetaDB) (ops : List Op) : MetaDB :=
  ops.foldl (stepOp cfg) db

/-- 1 when the traced call is an `AssignItemToShard` that succeeds on this
table, 0 otherwise. -/
def assignDelta (cfg : Config) (db : MetaDB) : Op → Nat
  | .assign => if (AssignItemToShard cfg db).isOk then 1 else 0
  | .remove _ => 0

/-- 1 when the traced call is a `RemoveItemFromShard` that actually
decrements a counter (a registered shard with positive `item_count`),
0 otherwise. -/
def removeDelta (db : MetaDB) : Op → Nat
  | .assign => 0
  | .remove id =>
    match findRec db id with
    | some r => if 0 < r.item_count then 1 else 0
    | none => 0

/-- Count, along a trace, the assignments that succeed and the removals
that actually decrement a counter. -/
def traceCounts (cfg : Config) : MetaDB → List Op → Nat × Nat
  | _, [] => (0, 0)
  | db, op :: ops =>
    let rest := traceCounts cfg (stepOp cfg db op) ops
    (assignDelta cfg db op + rest.1, removeDelta db op + rest.2)

/-- `n` consecutive `AssignItemToShard` calls, collecting the returned shard
ids; `none` when some call fails. -/
def assignN (cfg : Config) (db : MetaDB) : Nat → Option (List Nat × MetaDB)
  | 0 => some ([], db)
  | n + 1 =>
    match assignN cfg db n with
    | none => none
    | some (ids, db₁) =>
      match AssignItemToShard cfg db₁ with
      | .ok (j, db₂) => some (ids ++ [j], db₂)
      | .error _ => none

/-- Well-formedness of the metadata table: `shard_id` is a primary key. -/
def WF (db : MetaDB) : Prop :=
  (db.map ShardRec.shard_id).Nodup

instance (db : MetaDB) : Decidable (WF db) := by
  unfold WF; infer_instance

/-- Scenario A configuration: fill balancing, soft cap 2, max shard count 5,
on-startup generation. -/
def scenarioA : ConfigIn :=
  { basePath := "data", softCap := 2, maxDBCount := 5,
    balancingMode := "fill", generationMode := "on-startup" }

/-- Resolved scenario A configuration. -/
def scenarioACfg : Config :=
  { basePath := "data", softCap := 2, maxDBCount := 5,
    balancingMode := .fill, generationMode := .onStartup }

end Litebeam

namespace Litebeam

/-- C1: with fill balancing, soft cap 2, max shard count 5 and on-startup
generation over an empty base directory, construction succeeds with 5
registered shards, all at `item_count = 0`; the first 10 `AssignItemToShard`
calls return ids 0,0,1,1,2,2,3,3,4,4 leaving every shard at `item_count = 2`,
and the 11th call returns shard 0, raising its `item_count` to 3. -/
theorem c1_scenario_a :
    NewSharder scenarioA = .ok (scenarioACfg,
      [⟨0, 0⟩, ⟨1, 0⟩, ⟨2, 0⟩, ⟨3, 0⟩, ⟨4, 0⟩]) ∧
    GetShardCount [⟨0, 0⟩, ⟨1, 0⟩, ⟨2, 0⟩, ⟨3, 0⟩, ⟨4, 0⟩] = 5 ∧
    assignN scenarioACfg [⟨0, 0⟩, ⟨1, 0⟩, ⟨2, 0⟩, ⟨3, 0⟩, ⟨4, 0⟩] 10 =
      some ([0, 0, 1, 1, 2, 2, 3, 3, 4, 4],
        [⟨0, 2⟩, ⟨1, 2⟩, ⟨2, 2⟩, ⟨3, 2⟩, ⟨4, 2⟩]) ∧
    assignN scenarioACfg [⟨0, 0⟩, ⟨1, 0⟩, ⟨2, 0⟩, ⟨3, 0⟩, ⟨4, 0⟩] 11 =
      some ([0, 0, 1, 1, 2, 2, 3, 3, 4, 4, 0],
        [⟨0, 3⟩, ⟨1, 2⟩, ⟨2, 2⟩, ⟨3, 2⟩, ⟨4, 2⟩]) := by
  refine ⟨rfl, by decide, by decide, by decide⟩

end Litebeam

namespace Litebeam

theorem keyLe_refl (a : Nat × Nat) : keyLe a a :=
  Or.inr ⟨rfl, Nat.le_refl _⟩

theorem keyLe_of_keyLt {a b : Nat × Nat} (h : keyLt a b = true) : keyLe a b := by
  simp only [keyLt, Bool.or_eq_true, Bool.and_eq_true, decide_eq_true_eq, beq_iff_eq] at h
  unfold keyLe
  omega

theorem keyLe_of_not_keyLt {a b : Nat × Nat} (h : keyLt a b = false) : keyLe b a := by
  simp only [keyLt, Bool.or_eq_false_iff, Bool.and_eq_false_iff, decide_eq_false_iff_not,
    beq_eq_false_iff_ne, ne_eq] at h
  unfold keyLe
  omega

theorem keyLe_trans {a b c : Nat × Nat} (hab : keyLe a b) (hbc : keyLe b c) : keyLe a c := by
  unfold keyLe at *
  omega

/-- The fold modelling `ORDER BY key LIMIT 1` returns a row of the table that
sorts no later than every row of the table. -/
theorem pickMin_spec (key : ShardRec → Nat × Nat) (r : ShardRec) (rs : List ShardRec) :
    pickMin key r rs ∈ r :: rs ∧
      ∀ x ∈ r :: rs, keyLe (key (pickMin key r rs)) (key x) := by
  induction rs generalizing r with
  | nil =>
    refine ⟨List.mem_cons_self _ _, ?_⟩
    intro x hx
    rcases List.mem_cons.1 hx with h | h
    · subst h; exact keyLe_refl _
    · cases h
  | cons y ys ih =>
    obtain ⟨ihmem, ihle⟩ := ih (if keyLt (key y) (key r) then y else r)
    have hfold : pickMin key r (y :: ys) =
        pickMin key (if keyLt (key y) (key r) then y else r) ys := rfl
    rw [hfold]
    have hcases : (if keyLt (key y) (key r) then y else r) = y ∨
        (if keyLt (key y) (key r) then y else r) = r := by
      by_cases hk : keyLt (key y) (key r) = true
      · exact Or.inl (if_pos hk)
      · exact Or.inr (if_neg hk)
    have hleboth : keyLe (key (if keyLt (key y) (key r) then y else r)) (key r) ∧
        keyLe (key (if keyLt (key y) (key r) then y else r)) (key y) := by
      by_cases hk : keyLt (key y) (key r) = true
      · rw [if_pos hk]; exact ⟨keyLe_of_keyLt hk, keyLe_refl _⟩
      · rw [if_neg hk]
        simp only [Bool.not_eq_true] at hk
        exact ⟨keyLe_refl _, keyLe_of_not_keyLt hk⟩
    constructor
    · rcases List.mem_cons.1 ihmem with h | h
      · rcases hcases with h' | h'
        · rw [h'] at h ⊢; rw [h]
          exact List.mem_cons_of_mem _ (List.mem_cons_self _ _)
        · rw [h'] at h ⊢; rw [h]
          exact List.mem_cons_self _ _
      · exact List.mem_cons_of_mem _ (List.mem_cons_of_mem _ h)
    · intro x hx
      have hhead := ihle _ (List.mem_cons_self _ _)
      rcases List.mem_cons.1 hx with h | h
      · subst h
        exact keyLe_trans hhead hleboth.1
      · rcases List.mem_cons.1 h with h' | h'
        · subst h'
          exact keyLe_trans hhead hleboth.2
        · exact ihle _ (List.mem_cons_of_mem _ h')

/-- `firstByCountThenId` returns a registered row minimal for
`(item_count, shard_id)`. -/
theorem firstByCountThenId_spec {db : MetaDB} {r : ShardRec}
    (h : firstByCountThenId db = some r) :
    r ∈ db ∧ ∀ x ∈ db, keyLe (r.item_count, r.shard_id) (x.item_count, x.shard_id) := by
  cases db with
  | nil => cases h
  | cons a as =>
    have hr : r = pickMin (fun x => (x.item_count, x.shard_id)) a as := by
      simpa [firstByCountThenId] using h.symm
    obtain ⟨hmem, hle⟩ := pickMin_spec (fun x => (x.item_count, x.shard_id)) a as
    exact ⟨hr ▸ hmem, fun x hx => hr ▸ hle x hx⟩

/-- On a non-empty table `firstByCountThenId` finds a row. -/
theorem firstByCountThenId_isSome {db : MetaDB} (h : db ≠ []) :
    ∃ r, firstByCountThenId db = some r := by
  cases db with
  | nil => exact absurd rfl h
  | cons a as => exact ⟨_, rfl⟩

/-- `firstUnderCap` returns a registered row under the cap with the least
`shard_id` among rows under the cap. -/
theorem firstUnderCap_spec {db : MetaDB} {cap : Int} {r : ShardRec}
    (h : firstUnderCap db cap = some r) :
    r ∈ db ∧ (r.item_count : Int) < cap ∧
      ∀ x ∈ db, (x.item_count : Int) < cap → r.shard_id ≤ x.shard_id := by
  unfold firstUnderCap at h
  cases hf : db.filter (fun r => decide ((r.item_count : Int) < cap)) with
  | nil => rw [hf] at h; cases h
  | cons a as =>
    rw [hf] at h
    have hr : r = pickMin (fun x => (x.shard_id, 0)) a as := by
      simpa using h.symm
    obtain ⟨hmem, hle⟩ := pickMin_spec (fun x => (x.shard_id, 0)) a as
    rw [← hr] at hmem hle
    have hmem' : r ∈ db.filter (fun r => decide ((r.item_count : Int) < cap)) := by
      rw [hf]; exact hmem
    obtain ⟨hrdb, hrcap⟩ := List.mem_filter.1 hmem'
    refine ⟨hrdb, by simpa using hrcap, ?_⟩
    intro x hx hxcap
    have hxf : x ∈ db.filter (fun r => decide ((r.item_count : Int) < cap)) :=
      List.mem_filter.2 ⟨hx, by simpa using hxcap⟩
    have := hle x (by rw [hf] at hxf; exact hxf)
    rcases this with h' | h'
    · exact Nat.le_of_lt h'
    · exact Nat.le_of_eq h'.1

/-- When every row is at or above the cap, `firstUnderCap` finds nothing. -/
theorem firstUnderCap_eq_none {db : MetaDB} {cap : Int}
    (h : ∀ x ∈ db, cap ≤ (x.item_count : Int)) :
    firstUnderCap db cap = none := by
  unfold firstUnderCap
  have hf : db.filter (fun r => decide ((r.item_count : Int) < cap)) = [] := by
    rw [List.filter_eq_nil_iff]
    intro a ha
    simpa using not_lt.2 (h a ha)
  rw [hf]

/-- A row under the cap makes `firstUnderCap` find one. -/
theorem firstUnderCap_isSome {db : MetaDB} {cap : Int} {r₀ : ShardRec}
    (h₀ : r₀ ∈ db) (hlt : (r₀.item_count : Int) < cap) :
    ∃ r, firstUnderCap db cap = some r := by
  unfold firstUnderCap
  have : r₀ ∈ db.filter (fun r => decide ((r.item_count : Int) < cap)) :=
    List.mem_filter.2 ⟨h₀, by simpa using hlt⟩
  cases hf : db.filter (fun r => decide ((r.item_count : Int) < cap)) with
  | nil => rw [hf] at this; cases this
  | cons a as => exact ⟨_, rfl⟩

/-- `MAX(shard_id)` bounds every registered id. -/
theorem maxShardId_spec {db : MetaDB} {m : Nat} (h : maxShardId db = some m) :
    ∀ r ∈ db, r.shard_id ≤ m := by
  cases db with
  | nil => cases h
  | cons a as =>
    have hm : m = as.foldl (fun acc x => Nat.max acc x.shard_id) a.shard_id := by
      simpa [maxShardId] using h.symm
    have key : ∀ (rs : List ShardRec) (acc : Nat),
        acc ≤ rs.foldl (fun acc x => Nat.max acc x.shard_id) acc ∧
        ∀ x ∈ rs, x.shard_id ≤ rs.foldl (fun acc x => Nat.max acc x.shard_id) acc := by
      intro rs
      induction rs with
      | nil => intro acc; exact ⟨Nat.le_refl _, fun x hx => absurd hx (List.not_mem_nil _)⟩
      | cons y ys ih =>
        intro acc
        obtain ⟨ih1, ih2⟩ := ih (Nat.max acc y.shard_id)
        refine ⟨Nat.le_trans (Nat.le_max_left _ _) ih1, ?_⟩
        intro x hx
        rcases List.mem_cons.1 hx with h' | h'
        · subst h'; exact Nat.le_trans (Nat.le_max_right _ _) ih1
        · exact ih2 x h'
    intro r hr
    rcases List.mem_cons.1 hr with h' | h'
    · subst h'; exact hm ▸ (key as r.shard_id).1
    · exact hm ▸ (key as a.shard_id).2 r h'

/-- `incrCount` keeps the set (and order) of registered shard ids. -/
theorem incrCount_map_id (db : MetaDB) (j : Nat) :
    (incrCount db j).map ShardRec.shard_id = db.map ShardRec.shard_id := by
  induction db with
  | nil => rfl
  | cons a as ih =>
    by_cases h : a.shard_id = j <;> simp [incrCount, h] <;>
      simpa [incrCount] using ih

/-- Rows whose id is not the incremented one are untouched by `incrCount`. -/
theorem mem_incrCount_of_ne {db : MetaDB} {x : ShardRec} {j : Nat}
    (hx : x ∈ db) (hne : x.shard_id ≠ j) : x ∈ incrCount db j := by
  have := List.mem_map_of_mem
    (fun r => if r.shard_id = j then { r with item_count := r.item_count + 1 } else r) hx
  simpa [incrCount, hne] using this

end Litebeam

namespace Litebeam

/-- C4: in round-robin mode every successful `AssignItemToShard` call
increments the registered shard minimal for `(item_count, shard_id)` —
the globally least-loaded shard, ties broken by lowest id — regardless of
the soft cap, returns its id, and never adds a shard (the id column of the
table is unchanged). -/
theorem c4_round_robin_least_loaded (cfg : Config) (db db' : MetaDB) (j : Nat)
    (hmode : cfg.balancingMode = .roundRobin)
    (h : AssignItemToShard cfg db = .ok (j, db')) :
    ∃ r ∈ db, r.shard_id = j ∧ db' = incrCount db j ∧
      (∀ x ∈ db, keyLe (r.item_count, r.shard_id) (x.item_count, x.shard_id)) ∧
      GetShardCount db' = GetShardCount db ∧
      db'.map ShardRec.shard_id = db.map ShardRec.shard_id := by
  unfold AssignItemToShard at h
  rw [hmode] at h
  cases hF : firstByCountThenId db with
  | none => rw [hF] at h; cases h
  | some r =>
    rw [hF] at h
    simp only [Except.ok.injEq, Prod.mk.injEq] at h
    obtain ⟨hj, hdb⟩ := h
    obtain ⟨hmem, hle⟩ := firstByCountThenId_spec hF
    subst hj
    refine ⟨r, hmem, rfl, hdb.symm, hle, ?_, ?_⟩
    · rw [← hdb]
      simp [GetShardCount, incrCount]
    · rw [← hdb]
      exact incrCount_map_id db r.shard_id

/-- Witness for `c4_round_robin_least_loaded` at a concrete state: with rows
`(0,2), (1,1)` the call returns shard 1. -/
theorem c4_round_robin_least_loaded_witness :
    ∃ r ∈ ([⟨0, 2⟩, ⟨1, 1⟩] : MetaDB), r.shard_id = 1 ∧
      ([⟨0, 2⟩, ⟨1, 2⟩] : MetaDB) = incrCount [⟨0, 2⟩, ⟨1, 1⟩] 1 ∧
      (∀ x ∈ ([⟨0, 2⟩, ⟨1, 1⟩] : MetaDB),
        keyLe (r.item_count, r.shard_id) (x.item_count, x.shard_id)) ∧
      GetShardCount ([⟨0, 2⟩, ⟨1, 2⟩] : MetaDB) = GetShardCount [⟨0, 2⟩, ⟨1, 1⟩] ∧
      ([⟨0, 2⟩, ⟨1, 2⟩] : MetaDB).map ShardRec.shard_id =
        ([⟨0, 2⟩, ⟨1, 1⟩] : MetaDB).map ShardRec.shard_id :=
  c4_round_robin_least_loaded
    { basePath := "data", softCap := 2, maxDBCount := 2,
      balancingMode := .roundRobin, generationMode := .onStartup }
    [⟨0, 2⟩, ⟨1, 1⟩] [⟨0, 2⟩, ⟨1, 2⟩] 1 rfl (by rfl)

/-- C3: in fill mode, when some registered shard is under the soft cap,
`AssignItemToShard` returns the lowest shard id among those under the cap,
incrementing exactly that row and leaving every other row unchanged. -/
theorem c3_fill_lowest_id_under_cap (cfg : Config) (db : MetaDB) (r₀ : ShardRec)
    (hmode : cfg.balancingMode = .fill)
    (h₀ : r₀ ∈ db) (hlt : (r₀.item_count : Int) < cfg.softCap) :
    ∃ r ∈ db, (r.item_count : Int) < cfg.softCap ∧
      AssignItemToShard cfg db = .ok (r.shard_id, incrCount db r.shard_id) ∧
      (∀ x ∈ db, (x.item_count : Int) < cfg.softCap → r.shard_id ≤ x.shard_id) ∧
      (∀ x ∈ db, x.shard_id ≠ r.shard_id → x ∈ incrCount db r.shard_id) := by
  obtain ⟨r, hF⟩ := firstUnderCap_isSome h₀ hlt
  obtain ⟨hmem, hcap, hmin⟩ := firstUnderCap_spec hF
  refine ⟨r, hmem, hcap, ?_, hmin, ?_⟩
  · unfold AssignItemToShard
    rw [hmode, hF]
  · intro x hx hne
    exact mem_incrCount_of_ne hx hne

/-- Witness for `c3_fill_lowest_id_under_cap`: with soft cap 2 and rows
`(0,2), (1,1), (2,0)`, shard 1 is picked. -/
theorem c3_fill_lowest_id_under_cap_witness :
    ∃ r ∈ ([⟨0, 2⟩, ⟨1, 1⟩, ⟨2, 0⟩] : MetaDB), (r.item_count : Int) < 2 ∧
      AssignItemToShard
          { basePath := "data", softCap := 2, maxDBCount := 3,
            balancingMode := .fill, generationMode := .onStartup }
          [⟨0, 2⟩, ⟨1, 1⟩, ⟨2, 0⟩] =
        .ok (r.shard_id, incrCount [⟨0, 2⟩, ⟨1, 1⟩, ⟨2, 0⟩] r.shard_id) ∧
      (∀ x ∈ ([⟨0, 2⟩, ⟨1, 1⟩, ⟨2, 0⟩] : MetaDB),
        (x.item_count : Int) < 2 → r.shard_id ≤ x.shard_id) ∧
      (∀ x ∈ ([⟨0, 2⟩, ⟨1, 1⟩, ⟨2, 0⟩] : MetaDB), x.shard_id ≠ r.shard_id →
        x ∈ incrCount [⟨0, 2⟩, ⟨1, 1⟩, ⟨2, 0⟩] r.shard_id) :=
  c3_fill_lowest_id_under_cap
    { basePath := "data", softCap := 2, maxDBCount := 3,
      balancingMode := .fill, generationMode := .onStartup }
    [⟨0, 2⟩, ⟨1, 1⟩, ⟨2, 0⟩] ⟨1, 1⟩ rfl (by decide) (by decide)

/-- C2: in fill mode, when every registered shard is at or above the soft
cap and `MAX(shard_id) + 1 > MaxDBCount - 1`, `AssignItemToShard` does not
fail and does not create a shard: it increments the registered shard
minimal for `(item_count, shard_id)` — lowest count, ties broken by lowest
id — and returns that shard's id. -/
theorem c2_fill_saturates_when_exhausted (cfg : Config) (db : MetaDB) (m : Nat)
    (hmode : cfg.balancingMode = .fill)
    (hmax : maxShardId db = some m)
    (hcap : ∀ x ∈ db, cfg.softCap ≤ (x.item_count : Int))
    (hover : (m : Int) + 1 > cfg.maxDBCount - 1) :
    ∃ r ∈ db, AssignItemToShard cfg db = .ok (r.shard_id, incrCount db r.shard_id) ∧
      (∀ x ∈ db, keyLe (r.item_count, r.shard_id) (x.item_count, x.shard_id)) ∧
      GetShardCount (incrCount db r.shard_id) = GetShardCount db := by
  have hne : db ≠ [] := by
    intro hdb
    rw [hdb] at hmax
    cases hmax
  obtain ⟨r, hF⟩ := firstByCountThenId_isSome hne
  obtain ⟨hmem, hle⟩ := firstByCountThenId_spec hF
  refine ⟨r, hmem, ?_, hle, by simp [GetShardCount, incrCount]⟩
  have hnid : nextShardID db = m + 1 := by
    unfold nextShardID
    rw [hmax]
  unfold AssignItemToShard
  rw [hmode, firstUnderCap_eq_none hcap, hnid]
  have hcond : ((m + 1 : Nat) : Int) > cfg.maxDBCount - 1 := by
    push_cast
    omega
  rw [if_pos hcond, hF]

/-- Witness for `c2_fill_saturates_when_exhausted`: soft cap 1, max shard
count 2, rows `(0,2), (1,1)` — the call saturates shard 1. -/
theorem c2_fill_saturates_when_exhausted_witness :
    ∃ r ∈ ([⟨0, 2⟩, ⟨1, 1⟩] : MetaDB),
      AssignItemToShard
          { basePath := "data", softCap := 1, maxDBCount := 2,
            balancingMode := .fill, generationMode := .onStartup }
          [⟨0, 2⟩, ⟨1, 1⟩] =
        .ok (r.shard_id, incrCount [⟨0, 2⟩, ⟨1, 1⟩] r.shard_id) ∧
      (∀ x ∈ ([⟨0, 2⟩, ⟨1, 1⟩] : MetaDB),
        keyLe (r.item_count, r.shard_id) (x.item_count, x.shard_id)) ∧
      GetShardCount (incrCount [⟨0, 2⟩, ⟨1, 1⟩] r.shard_id) =
        GetShardCount [⟨0, 2⟩, ⟨1, 1⟩] :=
  c2_fill_saturates_when_exhausted
    { basePath := "data", softCap := 1, maxDBCount := 2,
      balancingMode := .fill, generationMode := .onStartup }
    [⟨0, 2⟩, ⟨1, 1⟩] 1 rfl (by decide) (by decide) (by decide)

end Litebeam

namespace Litebeam

theorem shardExists_iff {db : MetaDB} {j : Nat} :
    shardExists db j = true ↔ ∃ r ∈ db, r.shard_id = j := by
  simp [shardExists, List.any_eq_true, beq_iff_eq]

theorem shardExists_eq_false_iff {db : MetaDB} {j : Nat} :
    shardExists db j = false ↔ ∀ x ∈ db, x.shard_id ≠ j := by
  rw [← Bool.not_eq_true, shardExists_iff]
  simp

/-- A per-row `UPDATE ... WHERE shard_id = j` changes nothing when no row
matches. -/
theorem updateWhere_eq_self (g : ShardRec → ShardRec) {db : MetaDB} {j : Nat}
    (h : ∀ x ∈ db, x.shard_id ≠ j) :
    (db.map fun r => if r.shard_id = j then g r else r) = db := by
  induction db with
  | nil => rfl
  | cons a as ih =>
    have ha : a.shard_id ≠ j := h a (List.mem_cons_self _ _)
    simp only [List.map_cons, if_neg ha]
    rw [ih fun x hx => h x (List.mem_cons_of_mem _ hx)]

/-- A per-row `UPDATE ... WHERE shard_id = j` that keeps `shard_id` keeps
the id column of the table. -/
theorem updateWhere_map_id (g : ShardRec → ShardRec)
    (hg : ∀ r, (g r).shard_id = r.shard_id) (db : MetaDB) (j : Nat) :
    ((db.map fun r => if r.shard_id = j then g r else r).map ShardRec.shard_id) =
      db.map ShardRec.shard_id := by
  induction db with
  | nil => rfl
  | cons a as ih =>
    by_cases h : a.shard_id = j <;> simp [h, hg, ih]

theorem decrFloor_map_id (db : MetaDB) (j : Nat) :
    (decrFloor db j).map ShardRec.shard_id = db.map ShardRec.shard_id :=
  updateWhere_map_id (fun r => { r with item_count := r.item_count - 1 })
    (fun _ => rfl) db j

theorem setCountOne_map_id (db : MetaDB) (j : Nat) :
    (setCountOne db j).map ShardRec.shard_id = db.map ShardRec.shard_id :=
  updateWhere_map_id (fun r => { r with item_count := 1 }) (fun _ => rfl) db j

/-- Rows whose id is not the decremented one are untouched by `decrFloor`. -/
theorem mem_decrFloor_of_ne {db : MetaDB} {x : ShardRec} {j : Nat}
    (hx : x ∈ db) (hne : x.shard_id ≠ j) : x ∈ decrFloor db j := by
  have := List.mem_map_of_mem
    (fun r => if r.shard_id = j then { r with item_count := r.item_count - 1 } else r) hx
  simpa [decrFloor, hne] using this

/-- Setting the count of a freshly appended row to 1. -/
theorem setCountOne_append_fresh {db : MetaDB} {j c : Nat}
    (h : ∀ x ∈ db, x.shard_id ≠ j) :
    setCountOne (db ++ [{ shard_id := j, item_count := c }]) j =
      db ++ [{ shard_id := j, item_count := 1 }] := by
  unfold setCountOne
  rw [List.map_append, updateWhere_eq_self _ h]
  simp

/-- `MAX(shard_id)` is `NULL` exactly on the empty table. -/
theorem maxShardId_eq_none_iff {db : MetaDB} : maxShardId db = none ↔ db = [] := by
  cases db <;> simp [maxShardId]

/-- `nextShardID` is never a registered id. -/
theorem nextShardID_fresh (db : MetaDB) : ∀ x ∈ db, x.shard_id ≠ nextShardID db := by
  intro x hx
  cases hm : maxShardId db with
  | none =>
    rw [maxShardId_eq_none_iff.1 hm] at hx
    cases hx
  | some m =>
    have hle := maxShardId_spec hm x hx
    have hnid : nextShardID db = m + 1 := by
      unfold nextShardID
      rw [hm]
    rw [hnid]
    omega

/-- Case analysis of a successful `createAndRegisterNewShard`: either the
row already existed and the table is unchanged, or the row `(shardID, 0)`
was inserted and the table was strictly below the ceiling. -/
theorem create_ok_cases {cfg : Config} {db : MetaDB} {id : Nat} {db' : MetaDB}
    (h : createAndRegisterNewShard cfg db id = .ok db') :
    (shardExists db id = true ∧ db' = db) ∨
      (shardExists db id = false ∧
        db' = db ++ [{ shard_id := id, item_count := 0 }] ∧
        (db.length : Int) < cfg.maxDBCount) := by
  unfold createAndRegisterNewShard at h
  split_ifs at h with h1 h2
  · injection h with h'
    exact Or.inl ⟨h2, h'.symm⟩
  · injection h with h'
    exact Or.inr ⟨by simpa using h2, h'.symm, by omega⟩

/-- A full table makes `createAndRegisterNewShard` fail with the capacity
error, regardless of the requested id. -/
theorem create_full_error {cfg : Config} {db : MetaDB} (id : Nat)
    (h : cfg.maxDBCount ≤ (db.length : Int)) :
    createAndRegisterNewShard cfg db id = .error "maximum number of shards reached" := by
  unfold createAndRegisterNewShard
  rw [if_pos h]

/-- Case analysis of a successful `AssignItemToShard`: either an existing
row `j` was incremented, or the fresh row `(j, 1)` was appended while the
table was strictly below the ceiling. -/
theorem assign_ok_cases {cfg : Config} {db : MetaDB} {j : Nat} {db' : MetaDB}
    (h : AssignItemToShard cfg db = .ok (j, db')) :
    (∃ r ∈ db, r.shard_id = j ∧ db' = incrCount db j) ∨
      ((∀ x ∈ db, x.shard_id ≠ j) ∧
        db' = db ++ [{ shard_id := j, item_count := 1 }] ∧
        (db.length : Int) < cfg.maxDBCount) := by
  unfold AssignItemToShard at h
  cases hmode : cfg.balancingMode with
  | roundRobin =>
    rw [hmode] at h
    cases hF : firstByCountThenId db with
    | none => rw [hF] at h; cases h
    | some r =>
      rw [hF] at h
      simp only [Except.ok.injEq, Prod.mk.injEq] at h
      obtain ⟨hj, hdb⟩ := h
      subst hj
      exact Or.inl ⟨r, (firstByCountThenId_spec hF).1, rfl, hdb.symm⟩
  | fill =>
    rw [hmode] at h
    cases hF : firstUnderCap db cfg.softCap with
    | some r =>
      rw [hF] at h
      simp only [Except.ok.injEq, Prod.mk.injEq] at h
      obtain ⟨hj, hdb⟩ := h
      subst hj
      exact Or.inl ⟨r, (firstUnderCap_spec hF).1, rfl, hdb.symm⟩
    | none =>
      rw [hF] at h
      by_cases hcond : (nextShardID db : Int) > cfg.maxDBCount - 1
      · rw [if_pos hcond] at h
        cases hB : firstByCountThenId db with
        | none => rw [hB] at h; cases h
        | some r =>
          rw [hB] at h
          simp only [Except.ok.injEq, Prod.mk.injEq] at h
          obtain ⟨hj, hdb⟩ := h
          subst hj
          exact Or.inl ⟨r, (firstByCountThenId_spec hB).1, rfl, hdb.symm⟩
      · rw [if_neg hcond] at h
        cases hC : createAndRegisterNewShard cfg db (nextShardID db) with
        | error e => rw [hC] at h; cases h
        | ok dbc =>
          rw [hC] at h
          simp only [Except.ok.injEq, Prod.mk.injEq] at h
          obtain ⟨hj, hdb⟩ := h
          subst hj
          rcases create_ok_cases hC with ⟨hex, _⟩ | ⟨_, hins, hlt⟩
          · have hfresh := shardExists_eq_false_iff.2 (nextShardID_fresh db)
            rw [hfresh] at hex
            cases hex
          · refine Or.inr ⟨nextShardID_fresh db, ?_, hlt⟩
            rw [← hdb, hins, setCountOne_append_fresh (nextShardID_fresh db)]

end Litebeam

namespace Litebeam

theorem WF_cons {a : ShardRec} {as : MetaDB} :
    WF (a :: as) ↔ (∀ x ∈ as, x.shard_id ≠ a.shard_id) ∧ WF as := by
  simp only [WF, List.map_cons, List.nodup_cons, List.mem_map]
  constructor
  · rintro ⟨h1, h2⟩
    exact ⟨fun x hx hex => h1 ⟨x, hx, hex⟩, h2⟩
  · rintro ⟨h1, h2⟩
    exact ⟨fun he => by obtain ⟨x, hx, hex⟩ := he; exact h1 x hx hex, h2⟩

theorem total_cons (a : ShardRec) (as : MetaDB) :
    GetTotalItemCount (a :: as) = a.item_count + GetTotalItemCount as := by
  simp [GetTotalItemCount]

theorem total_append (d1 d2 : MetaDB) :
    GetTotalItemCount (d1 ++ d2) = GetTotalItemCount d1 + GetTotalItemCount d2 := by
  simp [GetTotalItemCount]

/-- Incrementing a registered row raises the total by exactly one. -/
theorem total_incr_mem {db : MetaDB} {j : Nat} (hwf : WF db)
    (hmem : ∃ r ∈ db, r.shard_id = j) :
    GetTotalItemCount (incrCount db j) = GetTotalItemCount db + 1 := by
  induction db with
  | nil =>
    obtain ⟨r, hr, _⟩ := hmem
    cases hr
  | cons a as ih =>
    obtain ⟨hfr, hwf'⟩ := WF_cons.1 hwf
    by_cases h : a.shard_id = j
    · have htail : incrCount as j = as :=
        updateWhere_eq_self _ (fun x hx => h ▸ hfr x hx)
    -- every other row has a different id, so only the head changes
      have hstep : incrCount (a :: as) j =
          { a with item_count := a.item_count + 1 } :: incrCount as j := by
        simp [incrCount, h]
      rw [hstep, htail, total_cons, total_cons]
      simp
      omega
    · obtain ⟨r, hr, hrj⟩ := hmem
      have hras : r ∈ as := by
        rcases List.mem_cons.1 hr with h' | h'
        · exact absurd (h' ▸ hrj) h
        · exact h'
      have hstep : incrCount (a :: as) j = a :: incrCount as j := by
        simp [incrCount, h]
      rw [hstep, total_cons, total_cons, ih hwf' ⟨r, hras, hrj⟩]
      omega

theorem findRec_cons (a : ShardRec) (as : MetaDB) (j : Nat) :
    findRec (a :: as) j = if a.shard_id = j then some a else findRec as j := by
  by_cases h : a.shard_id = j
  · rw [if_pos h]
    exact List.find?_cons_of_pos _ (by simp [h])
  · rw [if_neg h]
    exact List.find?_cons_of_neg _ (by simp [h])

theorem findRec_eq_none_iff {db : MetaDB} {j : Nat} :
    findRec db j = none ↔ ∀ x ∈ db, x.shard_id ≠ j := by
  simp [findRec, List.find?_eq_none]

/-- On a table with primary-key ids, every row is found under its own id. -/
theorem findRec_of_mem_nodup {db : MetaDB} {r : ShardRec} (hwf : WF db) (hr : r ∈ db) :
    findRec db r.shard_id = some r := by
  induction db with
  | nil => cases hr
  | cons a as ih =>
    obtain ⟨hfr, hwf'⟩ := WF_cons.1 hwf
    rcases List.mem_cons.1 hr with h | h
    · subst h
      rw [findRec_cons, if_pos rfl]
    · have hne : a.shard_id ≠ r.shard_id := fun he => (hfr r h) he.symm
      rw [findRec_cons, if_neg hne]
      exact ih hwf' h

theorem decrFloor_of_none {db : MetaDB} {j : Nat} (h : findRec db j = none) :
    decrFloor db j = db :=
  updateWhere_eq_self _ (findRec_eq_none_iff.1 h)

/-- Decrementing a registered shard already at zero leaves the table
unchanged. -/
theorem decrFloor_of_zero {db : MetaDB} {j : Nat} {r : ShardRec} (hwf : WF db)
    (hf : findRec db j = some r) (h0 : r.item_count = 0) :
    decrFloor db j = db := by
  induction db with
  | nil => cases hf
  | cons a as ih =>
    obtain ⟨hfr, hwf'⟩ := WF_cons.1 hwf
    rw [findRec_cons] at hf
    by_cases h : a.shard_id = j
    · rw [if_pos h] at hf
      injection hf with hf'
      subst hf'
      have htail : decrFloor as j = as :=
        updateWhere_eq_self _ (fun x hx => h ▸ hfr x hx)
      have hhead : ({ a with item_count := a.item_count - 1 } : ShardRec) = a := by
        obtain ⟨ai, ac⟩ := a
        simp only at h0
        simp [h0]
      calc decrFloor (a :: as) j
          = { a with item_count := a.item_count - 1 } :: decrFloor as j := by
            simp [decrFloor, h]
        _ = a :: as := by rw [hhead, htail]
    · rw [if_neg h] at hf
      have hstep : decrFloor (a :: as) j = a :: decrFloor as j := by
        simp [decrFloor, h]
      rw [hstep, ih hwf' hf]

/-- Decrementing a registered shard with a positive count lowers the total
by exactly one. -/
theorem total_decr_pos {db : MetaDB} {j : Nat} {r : ShardRec} (hwf : WF db)
    (hf : findRec db j = some r) (hpos : 0 < r.item_count) :
    GetTotalItemCount db = GetTotalItemCount (decrFloor db j) + 1 := by
  induction db with
  | nil => cases hf
  | cons a as ih =>
    obtain ⟨hfr, hwf'⟩ := WF_cons.1 hwf
    rw [findRec_cons] at hf
    by_cases h : a.shard_id = j
    · rw [if_pos h] at hf
      injection hf with hf'
      subst hf'
      have htail : decrFloor as j = as :=
        updateWhere_eq_self _ (fun x hx => h ▸ hfr x hx)
      have hstep : decrFloor (a :: as) j =
          { a with item_count := a.item_count - 1 } :: decrFloor as j := by
        simp [decrFloor, h]
      rw [hstep, htail, total_cons, total_cons]
      simp
      omega
    · rw [if_neg h] at hf
      have hstep : decrFloor (a :: as) j = a :: decrFloor as j := by
        simp [decrFloor, h]
      rw [hstep, total_cons, total_cons, ih hwf' hf]
      omega

theorem WF_of_map_id_eq {db db' : MetaDB}
    (h : db'.map ShardRec.shard_id = db.map ShardRec.shard_id) (hwf : WF db) :
    WF db' := by
  unfold WF at *
  rw [h]
  exact hwf

theorem WF_incrCount {db : MetaDB} {j : Nat} (hwf : WF db) : WF (incrCount db j) :=
  WF_of_map_id_eq (incrCount_map_id db j) hwf

theorem WF_decrFloor {db : MetaDB} {j : Nat} (hwf : WF db) : WF (decrFloor db j) :=
  WF_of_map_id_eq (decrFloor_map_id db j) hwf

/-- Appending a row with a fresh id preserves the primary-key property. -/
theorem WF_append_fresh {db : MetaDB} {j c : Nat} (hwf : WF db)
    (h : ∀ x ∈ db, x.shard_id ≠ j) :
    WF (db ++ [{ shard_id := j, item_count := c }]) := by
  unfold WF
  rw [List.map_append]
  refine List.Nodup.append hwf (List.nodup_singleton _) ?_
  intro x hx hx'
  simp only [List.map_cons, List.map_nil, List.mem_singleton] at hx'
  obtain ⟨y, hy, hyx⟩ := List.mem_map.1 hx
  exact h y hy (hyx.trans hx')

theorem stepOp_remove (cfg : Config) (db : MetaDB) (id : Nat) :
    stepOp cfg db (.remove id) = decrFloor db id := rfl

theorem stepOp_assign_ok {cfg : Config} {db db' : MetaDB} {j : Nat}
    (hA : AssignItemToShard cfg db = .ok (j, db')) :
    stepOp cfg db .assign = db' := by
  unfold stepOp
  rw [hA]

theorem stepOp_assign_err {cfg : Config} {db : MetaDB} {e : String}
    (hA : AssignItemToShard cfg db = .error e) :
    stepOp cfg db .assign = db := by
  unfold stepOp
  rw [hA]

/-- Every traced call preserves the primary-key property of the table. -/
theorem WF_stepOp {cfg : Config} {db : MetaDB} (op : Op) (hwf : WF db) :
    WF (stepOp cfg db op) := by
  cases op with
  | remove id =>
    rw [stepOp_remove]
    exact WF_decrFloor hwf
  | assign =>
    cases hA : AssignItemToShard cfg db with
    | error e =>
      rw [stepOp_assign_err hA]
      exact hwf
    | ok p =>
      obtain ⟨j, db'⟩ := p
      rw [stepOp_assign_ok hA]
      rcases assign_ok_cases hA with ⟨r, hr, hrj, hdb⟩ | ⟨hfresh, hdb, _⟩
      · rw [hdb]
        exact WF_incrCount hwf
      · rw [hdb]
        exact WF_append_fresh hwf hfresh

/-- Per-call accounting: a step changes the total by its assignment delta
minus its removal delta. -/
theorem stepOp_total (cfg : Config) (db : MetaDB) (op : Op) (hwf : WF db) :
    (GetTotalItemCount (stepOp cfg db op) : Int) =
      GetTotalItemCount db + assignDelta cfg db op - removeDelta db op := by
  cases op with
  | assign =>
    cases hA : AssignItemToShard cfg db with
    | error e =>
      rw [stepOp_assign_err hA]
      simp [assignDelta, removeDelta, hA, Except.isOk, Except.toBool]
    | ok p =>
      obtain ⟨j, db'⟩ := p
      rw [stepOp_assign_ok hA]
      have h1 : (GetTotalItemCount db' : Int) = GetTotalItemCount db + 1 := by
        rcases assign_ok_cases hA with ⟨r, hr, hrj, hdb⟩ | ⟨hfresh, hdb, _⟩
        · rw [hdb, total_incr_mem hwf ⟨r, hr, hrj⟩]
          push_cast
          ring
        · rw [hdb, total_append]
          simp [GetTotalItemCount]
      rw [h1]
      simp [assignDelta, removeDelta, hA, Except.isOk, Except.toBool]
  | remove id =>
    rw [stepOp_remove]
    cases hf : findRec db id with
    | none =>
      rw [decrFloor_of_none hf]
      simp [assignDelta, removeDelta, hf]
    | some r =>
      by_cases hp : 0 < r.item_count
      · have hdec := total_decr_pos hwf hf hp
        simp only [assignDelta, removeDelta, hf, if_pos hp]
        omega
      · have h0 : r.item_count = 0 := by omega
        rw [decrFloor_of_zero hwf hf h0]
        simp [assignDelta, removeDelta, hf, hp]

theorem run_nil (cfg : Config) (db : MetaDB) : run cfg db [] = db := rfl

theorem run_cons (cfg : Config) (db : MetaDB) (op : Op) (ops : List Op) :
    run cfg db (op :: ops) = run cfg (stepOp cfg db op) ops := rfl

theorem traceCounts_cons (cfg : Config) (db : MetaDB) (op : Op) (ops : List Op) :
    traceCounts cfg db (op :: ops) =
      (assignDelta cfg db op + (traceCounts cfg (stepOp cfg db op) ops).1,
       removeDelta db op + (traceCounts cfg (stepOp cfg db op) ops).2) := rfl

theorem WF_run (cfg : Config) (ops : List Op) :
    ∀ db, WF db → WF (run cfg db ops) := by
  induction ops with
  | nil =>
    intro db h
    exact h
  | cons op ops ih =>
    intro db h
    rw [run_cons]
    exact ih _ (WF_stepOp op h)

/-- Trace accounting: the total after a trace is the starting total plus
the successful assignments minus the effective removals. -/
theorem run_total (cfg : Config) (ops : List Op) :
    ∀ db, WF db →
      (GetTotalItemCount (run cfg db ops) : Int) =
        GetTotalItemCount db + (traceCounts cfg db ops).1 - (traceCounts cfg db ops).2 := by
  induction ops with
  | nil =>
    intro db _
    simp [run, traceCounts]
  | cons op ops ih =>
    intro db hwf
    rw [run_cons, traceCounts_cons]
    have hstep := stepOp_total cfg db op hwf
    have hih := ih (stepOp cfg db op) (WF_stepOp op hwf)
    push_cast at hih hstep ⊢
    omega

end Litebeam

namespace Litebeam

theorem validateConfig_ok {c : ConfigIn} {cfg : Config} (h : validateConfig c = .ok cfg) :
    cfg.softCap = c.softCap ∧ cfg.maxDBCount = c.maxDBCount ∧
      0 < c.softCap ∧ 0 < c.maxDBCount := by
  unfold validateConfig at h
  split_ifs at h with h1 h2 h3
  cases hg : parseGenerationMode c.generationMode with
  | none => rw [hg] at h; cases h
  | some g =>
    rw [hg] at h
    cases hb : parseBalancingMode c.balancingMode with
    | none => rw [hb] at h; cases h
    | some b =>
      rw [hb] at h
      injection h with h'
      subst h'
      exact ⟨rfl, rfl, by omega, by omega⟩

/-- The on-startup creation loop, run from a table of zero-count shards
with ids below the loop index, yields zero-count shards, fresh ids, a
primary-key table and respects the ceiling. -/
theorem createRange_inv (cfg : Config) :
    ∀ (n : Nat) (db : MetaDB) (i : Nat) (db' : MetaDB),
      createRange cfg db i n = .ok db' →
      (∀ r ∈ db, r.item_count = 0) → (∀ r ∈ db, r.shard_id < i) → WF db →
      (∀ r ∈ db', r.item_count = 0) ∧ (∀ r ∈ db', r.shard_id < i + n) ∧ WF db' ∧
        ((db.length : Int) ≤ cfg.maxDBCount → (db'.length : Int) ≤ cfg.maxDBCount) := by
  intro n
  induction n with
  | zero =>
    intro db i db' h hc hi hwf
    injection h with h'
    subst h'
    exact ⟨hc, fun r hr => by have := hi r hr; omega, hwf, fun hh => hh⟩
  | succ n ih =>
    intro db i db' h hc hi hwf
    unfold createRange at h
    cases hC : createAndRegisterNewShard cfg db i with
    | error e => rw [hC] at h; cases h
    | ok db₁ =>
      rw [hC] at h
      rcases create_ok_cases hC with ⟨hex, hdb₁⟩ | ⟨_, hdb₁, hlt⟩
      · obtain ⟨r, hr, hri⟩ := shardExists_iff.1 hex
        exact absurd (hri ▸ hi r hr) (lt_irrefl i)
      · subst hdb₁
        have hc' : ∀ r ∈ db ++ [{ shard_id := i, item_count := 0 }], r.item_count = 0 := by
          intro r hr
          rcases List.mem_append.1 hr with h' | h'
          · exact hc r h'
          · simp only [List.mem_singleton] at h'
            rw [h']
        have hi' : ∀ r ∈ db ++ [{ shard_id := i, item_count := 0 }], r.shard_id < i + 1 := by
          intro r hr
          rcases List.mem_append.1 hr with h' | h'
          · have := hi r h'
            omega
          · simp only [List.mem_singleton] at h'
            rw [h']
            exact Nat.lt_succ_self i
        have hwf' : WF (db ++ [{ shard_id := i, item_count := 0 }]) :=
          WF_append_fresh hwf (fun x hx => by have := hi x hx; omega)
        obtain ⟨c1, c2, c3, c4⟩ := ih (db ++ [{ shard_id := i, item_count := 0 }]) (i + 1) db' h hc' hi' hwf'
        refine ⟨c1, fun r hr => by have := c2 r hr; omega, c3, fun hlen => c4 ?_⟩
        simp only [List.length_append, List.length_cons, List.length_nil]
        push_cast
        omega

/-- `setUpShards` in on-startup mode over an empty directory produces a
zero-count primary-key table within the ceiling. -/
theorem setUpShards_onStartup_ok {cfg : Config} {db₀ : MetaDB}
    (hgen : cfg.generationMode = .onStartup) (hpos : 0 < cfg.maxDBCount)
    (h : setUpShards cfg [] = .ok db₀) :
    (∀ r ∈ db₀, r.item_count = 0) ∧ WF db₀ ∧ (db₀.length : Int) ≤ cfg.maxDBCount := by
  unfold setUpShards at h
  rw [hgen] at h
  simp only [GetShardCount, List.length_nil] at h
  rw [if_neg (by simp; omega)] at h
  obtain ⟨c1, _, c3, c4⟩ := createRange_inv cfg _ [] 0 db₀ h
    (by intro r hr; cases hr) (by intro r hr; cases hr) List.nodup_nil
  exact ⟨c1, c3, c4 (by simp; omega)⟩

/-- `createAndRegisterNewShard` over the empty table inserts shard 0. -/
theorem create_empty_ok {cfg : Config} (hpos : 0 < cfg.maxDBCount) :
    createAndRegisterNewShard cfg [] 0 = .ok [{ shard_id := 0, item_count := 0 }] := by
  unfold createAndRegisterNewShard
  rw [if_neg (by simp; omega), if_neg (by simp [shardExists])]
  rfl

/-- `setUpShards` in dynamic mode over an empty directory: the double
creation call of the source fails when `MaxDBCount = 1` and otherwise
leaves exactly shard 0. -/
theorem setUpShards_dynamic_empty (cfg : Config)
    (hgen : cfg.generationMode = .dynamic) (hpos : 0 < cfg.maxDBCount) :
    setUpShards cfg [] =
      if 1 < cfg.maxDBCount then .ok [{ shard_id := 0, item_count := 0 }]
      else .error "failed to generate intial shard on dynamic startup" := by
  have hensure : ensureShardExists cfg [] 0 = .ok (0, [{ shard_id := 0, item_count := 0 }]) := by
    unfold ensureShardExists
    rw [if_neg (by simp [shardExists]), create_empty_ok hpos]
  unfold setUpShards
  rw [hgen, hensure]
  simp only [gt_iff_lt, lt_irrefl, if_false]
  by_cases hm : 1 < cfg.maxDBCount
  · have hcreate1 : createAndRegisterNewShard cfg [{ shard_id := 0, item_count := 0 }] 0 =
        .ok [{ shard_id := 0, item_count := 0 }] := by
      unfold createAndRegisterNewShard
      rw [if_neg (by simp; omega), if_pos (by simp [shardExists])]
    rw [hcreate1, if_pos hm]
  · have hcreate1 : createAndRegisterNewShard cfg [{ shard_id := 0, item_count := 0 }] 0 =
        .error "maximum number of shards reached" :=
      create_full_error 0 (by simp; omega)
    rw [hcreate1, if_neg hm]

/-- A successful `NewSharder` always starts from a primary-key table of
zero-count shards within the ceiling. -/
theorem newSharder_ok_init {c : ConfigIn} {cfg : Config} {db₀ : MetaDB}
    (h : NewSharder c = .ok (cfg, db₀)) :
    WF db₀ ∧ (∀ r ∈ db₀, r.item_count = 0) ∧
      (db₀.length : Int) ≤ cfg.maxDBCount ∧ 0 < cfg.maxDBCount := by
  unfold NewSharder at h
  cases hv : validateConfig c with
  | error e => rw [hv] at h; cases h
  | ok cfg' =>
    rw [hv] at h
    change (match setUpShards cfg' [] with
      | Except.error e => (Except.error e : Except String (Config × MetaDB))
      | Except.ok db => Except.ok (cfg', db)) = Except.ok (cfg, db₀) at h
    cases hs : setUpShards cfg' [] with
    | error e => rw [hs] at h; cases h
    | ok db =>
      rw [hs] at h
      simp only [Except.ok.injEq, Prod.mk.injEq] at h
      obtain ⟨hcfg, hdb⟩ := h
      subst hcfg
      subst hdb
      obtain ⟨hsc, hmc, hspos, hmpos⟩ := validateConfig_ok hv
      have hpos : 0 < cfg'.maxDBCount := by omega
      cases hgen : cfg'.generationMode with
      | dynamic =>
        rw [setUpShards_dynamic_empty cfg' hgen hpos] at hs
        by_cases hm : 1 < cfg'.maxDBCount
        · rw [if_pos hm] at hs
          injection hs with hs'
          subst hs'
          refine ⟨by decide, by decide, by simp; omega, hpos⟩
        · rw [if_neg hm] at hs
          cases hs
      | onStartup =>
        obtain ⟨c1, c2, c3⟩ := setUpShards_onStartup_ok hgen hpos hs
        exact ⟨c2, c1, c3, hpos⟩

/-- Zero-count tables have zero total. -/
theorem total_eq_zero {db : MetaDB} (h : ∀ r ∈ db, r.item_count = 0) :
    GetTotalItemCount db = 0 := by
  induction db with
  | nil => rfl
  | cons a as ih =>
    rw [total_cons, h a (List.mem_cons_self _ _),
      ih fun r hr => h r (List.mem_cons_of_mem _ hr)]

/-- On a primary-key table, reading each registered shard's count back
through `GetItemCount` recovers the row counts. -/
theorem sum_getItemCountD {db : MetaDB} (hwf : WF db) :
    (db.map fun r => getItemCountD db r.shard_id).sum = GetTotalItemCount db := by
  unfold GetTotalItemCount
  refine congrArg List.sum (List.map_congr_left ?_)
  intro r hr
  unfold getItemCountD GetItemCount
  rw [findRec_of_mem_nodup hwf hr]

end Litebeam

namespace Litebeam

/-- The floored decrement acts on the looked-up row. -/
theorem findRec_decrFloor (db : MetaDB) (j : Nat) :
    findRec (decrFloor db j) j =
      (findRec db j).map fun r => { r with item_count := r.item_count - 1 } := by
  induction db with
  | nil => rfl
  | cons a as ih =>
    by_cases h : a.shard_id = j
    · have hstep : decrFloor (a :: as) j =
          { a with item_count := a.item_count - 1 } :: decrFloor as j := by
        simp [decrFloor, h]
      rw [hstep, findRec_cons, findRec_cons, if_pos h, if_pos h]
      rfl
    · have hstep : decrFloor (a :: as) j = a :: decrFloor as j := by
        simp [decrFloor, h]
      rw [hstep, findRec_cons, findRec_cons, if_neg h, if_neg h]
      exact ih

theorem stepOp_length_le {cfg : Config} {db : MetaDB} (op : Op)
    (hle : (db.length : Int) ≤ cfg.maxDBCount) :
    ((stepOp cfg db op).length : Int) ≤ cfg.maxDBCount := by
  cases op with
  | remove id =>
    rw [stepOp_remove]
    simpa [decrFloor] using hle
  | assign =>
    cases hA : AssignItemToShard cfg db with
    | error e =>
      rw [stepOp_assign_err hA]
      exact hle
    | ok p =>
      obtain ⟨j, db'⟩ := p
      rw [stepOp_assign_ok hA]
      rcases assign_ok_cases hA with ⟨r, hr, hrj, hdb⟩ | ⟨_, hdb, hlt⟩
      · rw [hdb]
        simpa [incrCount] using hle
      · rw [hdb]
        simp only [List.length_append, List.length_cons, List.length_nil]
        push_cast
        omega

theorem run_length_le (cfg : Config) (ops : List Op) :
    ∀ db, (db.length : Int) ≤ cfg.maxDBCount →
      ((run cfg db ops).length : Int) ≤ cfg.maxDBCount := by
  induction ops with
  | nil =>
    intro db h
    exact h
  | cons op ops ih =>
    intro db h
    rw [run_cons]
    exact ih _ (stepOp_length_le op h)

end Litebeam

namespace Litebeam

/-- C5 (amended): after any sequence of `AssignItemToShard` and
`RemoveItemFromShard` calls from a freshly constructed sharder,
`GetTotalItemCount` equals the sum of `GetItemCount` over all registered
shards, and equals the number of successful assignments minus the number of
removals that actually decremented a counter (removals aimed at an
unregistered shard or at a shard already at zero complete successfully but
change nothing, so they do not count). -/
theorem c5_total_consistency (c : ConfigIn) (cfg : Config) (db₀ : MetaDB)
    (h : NewSharder c = .ok (cfg, db₀)) (ops : List Op) :
    ((run cfg db₀ ops).map fun r => getItemCountD (run cfg db₀ ops) r.shard_id).sum =
      GetTotalItemCount (run cfg db₀ ops) ∧
    (GetTotalItemCount (run cfg db₀ ops) : Int) =
      ((traceCounts cfg db₀ ops).1 : Int) - (traceCounts cfg db₀ ops).2 := by
  obtain ⟨hwf, hzero, _, _⟩ := newSharder_ok_init h
  refine ⟨sum_getItemCountD (WF_run cfg ops db₀ hwf), ?_⟩
  rw [run_total cfg ops db₀ hwf, total_eq_zero hzero]
  push_cast
  ring

/-- Witness for `c5_total_consistency`: scenario A start, one assignment
followed by one removal. -/
theorem c5_total_consistency_witness :
    ((run scenarioACfg [⟨0, 0⟩, ⟨1, 0⟩, ⟨2, 0⟩, ⟨3, 0⟩, ⟨4, 0⟩] [Op.assign, Op.remove 0]).map
        fun r => getItemCountD
          (run scenarioACfg [⟨0, 0⟩, ⟨1, 0⟩, ⟨2, 0⟩, ⟨3, 0⟩, ⟨4, 0⟩] [Op.assign, Op.remove 0])
          r.shard_id).sum =
      GetTotalItemCount
        (run scenarioACfg [⟨0, 0⟩, ⟨1, 0⟩, ⟨2, 0⟩, ⟨3, 0⟩, ⟨4, 0⟩] [Op.assign, Op.remove 0]) ∧
    (GetTotalItemCount
        (run scenarioACfg [⟨0, 0⟩, ⟨1, 0⟩, ⟨2, 0⟩, ⟨3, 0⟩, ⟨4, 0⟩] [Op.assign, Op.remove 0]) : Int) =
      ((traceCounts scenarioACfg [⟨0, 0⟩, ⟨1, 0⟩, ⟨2, 0⟩, ⟨3, 0⟩, ⟨4, 0⟩]
          [Op.assign, Op.remove 0]).1 : Int) -
        (traceCounts scenarioACfg [⟨0, 0⟩, ⟨1, 0⟩, ⟨2, 0⟩, ⟨3, 0⟩, ⟨4, 0⟩]
          [Op.assign, Op.remove 0]).2 :=
  c5_total_consistency scenarioA scenarioACfg [⟨0, 0⟩, ⟨1, 0⟩, ⟨2, 0⟩, ⟨3, 0⟩, ⟨4, 0⟩]
    rfl [Op.assign, Op.remove 0]

/-- Counterexample to C5 as stated: from a fresh dynamic-mode sharder whose
only shard 0 is empty, one `RemoveItemFromShard 0` call completes
successfully (the floored decrement is a silent no-op), so the number of
completed assignments minus completed removals is `0 - 1 = -1`, while
`GetTotalItemCount` remains 0. -/
theorem c5_counterexample :
    NewSharder { basePath := "data", softCap := 1, maxDBCount := 2,
                 balancingMode := "fill", generationMode := "dynamic" } =
      .ok ({ basePath := "data", softCap := 1, maxDBCount := 2,
             balancingMode := .fill, generationMode := .dynamic },
           [{ shard_id := 0, item_count := 0 }]) ∧
    RemoveItemFromShard [{ shard_id := 0, item_count := 0 }] 0 =
      [{ shard_id := 0, item_count := 0 }] ∧
    (GetTotalItemCount (run { basePath := "data", softCap := 1, maxDBCount := 2,
                              balancingMode := .fill, generationMode := .dynamic }
        [{ shard_id := 0, item_count := 0 }] [Op.remove 0]) : Int) ≠ (0 : Int) - 1 :=
  ⟨rfl, by decide, by decide⟩

/-- C6: from any successful construction, `GetShardCount` never exceeds
`MaxDBCount` along any trace of assignments and removals; and once
`MaxDBCount` shards are registered, every `createAndRegisterNewShard` call
fails with the capacity error and inserts nothing. -/
theorem c6_shard_ceiling (c : ConfigIn) (cfg : Config) (db₀ : MetaDB)
    (h : NewSharder c = .ok (cfg, db₀)) :
    (∀ ops, (GetShardCount (run cfg db₀ ops) : Int) ≤ cfg.maxDBCount) ∧
    (∀ db id, cfg.maxDBCount ≤ (GetShardCount db : Int) →
      createAndRegisterNewShard cfg db id = .error "maximum number of shards reached") := by
  obtain ⟨_, _, hlen, _⟩ := newSharder_ok_init h
  exact ⟨fun ops => run_length_le cfg ops db₀ hlen, fun db id hge => create_full_error id hge⟩

/-- Witness for `c6_shard_ceiling` at scenario A: one further assignment
stays within the ceiling of 5, and creation on the full table fails. -/
theorem c6_shard_ceiling_witness :
    (GetShardCount (run scenarioACfg [⟨0, 0⟩, ⟨1, 0⟩, ⟨2, 0⟩, ⟨3, 0⟩, ⟨4, 0⟩]
        [Op.assign]) : Int) ≤ scenarioACfg.maxDBCount ∧
    createAndRegisterNewShard scenarioACfg [⟨0, 0⟩, ⟨1, 0⟩, ⟨2, 0⟩, ⟨3, 0⟩, ⟨4, 0⟩] 7 =
      .error "maximum number of shards reached" := by
  have H := c6_shard_ceiling scenarioA scenarioACfg [⟨0, 0⟩, ⟨1, 0⟩, ⟨2, 0⟩, ⟨3, 0⟩, ⟨4, 0⟩] rfl
  exact ⟨H.1 [Op.assign], H.2 _ 7 (by decide)⟩

/-- C7: on a primary-key table, `RemoveItemFromShard` sets a registered
shard's count to `MAX(item_count - 1, 0)` (truncated `Nat` subtraction)
leaving all other rows unchanged; when the id is unregistered, or the
registered count is already zero, the table is unchanged — the operation
reports success in every one of these cases (in the model it always
returns the resulting table), so repeated removals at zero keep the count
at zero and never drive it negative. -/
theorem c7_remove_floor_and_noop (db : MetaDB) (id : Nat) (hwf : WF db) :
    (∀ r, findRec db id = some r →
      findRec (RemoveItemFromShard db id) id =
        some { r with item_count := r.item_count - 1 } ∧
      ∀ x ∈ db, x.shard_id ≠ id → x ∈ RemoveItemFromShard db id) ∧
    (findRec db id = none → RemoveItemFromShard db id = db) ∧
    (∀ r, findRec db id = some r → r.item_count = 0 →
      RemoveItemFromShard db id = db) := by
  refine ⟨fun r hr => ⟨?_, fun x hx hne => mem_decrFloor_of_ne hx hne⟩,
    fun h => decrFloor_of_none h,
    fun r hr h0 => decrFloor_of_zero hwf hr h0⟩
  show findRec (decrFloor db id) id = _
  rw [findRec_decrFloor, hr]
  rfl

/-- Witness for `c7_remove_floor_and_noop`: removing from empty shard 0
changes nothing; removing from shard 1 with 2 items leaves 1. -/
theorem c7_remove_floor_and_noop_witness :
    RemoveItemFromShard ([⟨0, 0⟩, ⟨1, 2⟩] : MetaDB) 0 = [⟨0, 0⟩, ⟨1, 2⟩] ∧
    findRec (RemoveItemFromShard ([⟨0, 0⟩, ⟨1, 2⟩] : MetaDB) 1) 1 = some ⟨1, 1⟩ := by
  refine ⟨(c7_remove_floor_and_noop [⟨0, 0⟩, ⟨1, 2⟩] 0 (by decide)).2.2 ⟨0, 0⟩ rfl rfl, ?_⟩
  exact ((c7_remove_floor_and_noop [⟨0, 0⟩, ⟨1, 2⟩] 1 (by decide)).1 ⟨1, 2⟩ rfl).1

/-- Counterexample to C8 as stated: with `MaxDBCount = 1` and shard 0
already registered, `createAndRegisterNewShard 0` hits the capacity check
(which the source runs before the pre-existing-record check) and returns
the capacity error instead of success. -/
theorem c8_counterexample :
    shardExists [{ shard_id := 0, item_count := 0 }] 0 = true ∧
    createAndRegisterNewShard
        { basePath := "data", softCap := 1, maxDBCount := 1,
          balancingMode := .fill, generationMode := .dynamic }
        [{ shard_id := 0, item_count := 0 }] 0 =
      .error "maximum number of shards reached" :=
  ⟨by decide, rfl⟩

/-- C8 (amended): whenever a record for `shard_id` already exists and the
registered count is still below `MaxDBCount`, `createAndRegisterNewShard`
treats the pre-existing record as success and leaves the table unchanged;
at the ceiling the capacity check fires first and returns the capacity
error even for an existing id. -/
theorem c8_amended_create_idempotent (cfg : Config) (db : MetaDB) (id : Nat)
    (hex : shardExists db id = true) (hlt : (db.length : Int) < cfg.maxDBCount) :
    createAndRegisterNewShard cfg db id = .ok db := by
  unfold createAndRegisterNewShard
  rw [if_neg (not_le.2 hlt), if_pos hex]

/-- Witness for `c8_amended_create_idempotent`: shard 0 pre-exists,
ceiling 2, table of length 1. -/
theorem c8_amended_create_idempotent_witness :
    createAndRegisterNewShard
        { basePath := "data", softCap := 1, maxDBCount := 2,
          balancingMode := .fill, generationMode := .dynamic }
        [{ shard_id := 0, item_count := 0 }] 0 =
      .ok [{ shard_id := 0, item_count := 0 }] :=
  c8_amended_create_idempotent
    { basePath := "data", softCap := 1, maxDBCount := 2,
      balancingMode := .fill, generationMode := .dynamic }
    [{ shard_id := 0, item_count := 0 }] 0 (by decide) (by decide)

/-- C9 at the failing input: dynamic generation with the valid
configuration `MaxDBCount = 1` makes `NewSharder` fail — after
`ensureShardExists 0` has already created shard 0, `setUpShards` calls
`createAndRegisterNewShard 0` a second time, whose capacity check now
trips — while the same configuration with `MaxDBCount = 2` succeeds and
leaves exactly shard 0 registered, as the spec describes. -/
theorem c9_dynamic_max1_fails :
    NewSharder { basePath := "data", softCap := 2, maxDBCount := 1,
                 balancingMode := "fill", generationMode := "dynamic" } =
      .error "failed to generate intial shard on dynamic startup" ∧
    NewSharder { basePath := "data", softCap := 2, maxDBCount := 2,
                 balancingMode := "fill", generationMode := "dynamic" } =
      .ok ({ basePath := "data", softCap := 2, maxDBCount := 2,
             balancingMode := .fill, generationMode := .dynamic },
           [{ shard_id := 0, item_count := 0 }]) :=
  ⟨rfl, rfl⟩

theorem parseGenerationMode_eq_none_iff (s : String) :
    parseGenerationMode s = none ↔ s ∉ (["", "dynamic", "on-startup"] : List String) := by
  unfold parseGenerationMode
  split_ifs with h1 h2 h3
  · subst h1; decide
  · subst h2; decide
  · subst h3; decide
  · simp [h1, h2, h3]

theorem parseBalancingMode_eq_none_iff (s : String) :
    parseBalancingMode s = none ↔ s ∉ (["", "fill", "round-robin"] : List String) := by
  unfold parseBalancingMode
  split_ifs with h1 h2 h3
  · subst h1; decide
  · subst h2; decide
  · subst h3; decide
  · simp [h1, h2, h3]

/-- C10: with the other configuration fields valid, `NewSharder`'s
validation accepts empty mode strings, silently defaulting the generation
mode to dynamic and the balancing mode to fill, and rejects a mode string
exactly when it is a non-empty string outside the recognized set. -/
theorem c10_empty_modes_default (c : ConfigIn) (hb : c.basePath ≠ "")
    (hs : 0 < c.softCap) (hm : 0 < c.maxDBCount) :
    validateConfig { c with generationMode := "", balancingMode := "" } =
      .ok { basePath := c.basePath, softCap := c.softCap, maxDBCount := c.maxDBCount,
            balancingMode := .fill, generationMode := .dynamic } ∧
    ((validateConfig c).isOk = false ↔
      c.generationMode ∉ (["", "dynamic", "on-startup"] : List String) ∨
      c.balancingMode ∉ (["", "fill", "round-robin"] : List String)) := by
  constructor
  · unfold validateConfig
    rw [if_neg hb, if_neg (not_le.2 hs), if_neg (not_le.2 hm)]
    rfl
  · unfold validateConfig
    rw [if_neg hb, if_neg (not_le.2 hs), if_neg (not_le.2 hm)]
    cases hg : parseGenerationMode c.generationMode with
    | none =>
      simp only [Except.isOk, Except.toBool]
      constructor
      · intro _
        exact Or.inl ((parseGenerationMode_eq_none_iff _).1 hg)
      · intro _
        trivial
    | some g =>
      have hg' : c.generationMode ∈ (["", "dynamic", "on-startup"] : List String) := by
        by_contra hc
        rw [← parseGenerationMode_eq_none_iff] at hc
        rw [hc] at hg
        cases hg
      cases hbm : parseBalancingMode c.balancingMode with
      | none =>
        simp only [Except.isOk, Except.toBool]
        constructor
        · intro _
          exact Or.inr ((parseBalancingMode_eq_none_iff _).1 hbm)
        · intro _
          trivial
      | some b =>
        have hb' : c.balancingMode ∈ (["", "fill", "round-robin"] : List String) := by
          by_contra hc
          rw [← parseBalancingMode_eq_none_iff] at hc
          rw [hc] at hbm
          cases hbm
        simp [Except.isOk, Except.toBool, hg', hb']

/-- Witness for `c10_empty_modes_default` at a concrete configuration with
an unrecognized generation mode. -/
theorem c10_empty_modes_default_witness :
    validateConfig { basePath := "x", softCap := 1, maxDBCount := 1,
                     balancingMode := "", generationMode := "" } =
      .ok { basePath := "x", softCap := 1, maxDBCount := 1,
            balancingMode := .fill, generationMode := .dynamic } ∧
    ((validateConfig { basePath := "x", softCap := 1, maxDBCount := 1,
                       balancingMode := "round-robin", generationMode := "bogus" }).isOk = false ↔
      "bogus" ∉ (["", "dynamic", "on-startup"] : List String) ∨
      "round-robin" ∉ (["", "fill", "round-robin"] : List String)) :=
  c10_empty_modes_default
    { basePath := "x", softCap := 1, maxDBCount := 1,
      balancingMode := "round-robin", generationMode := "bogus" }
    (by decide) (by decide) (by decide)

end Litebeam
